import Mathlib

/-!
Formal model of the waveform generator `user_apps/utils/wavegen.py`
(class `WaveGen`).

The Python code works on floating point numbers; the model idealises
them as exact rationals, and the two transcendental leaves (`np.sin`
and `np.pi`) are passed in as explicit parameters `sinq : ℚ → ℚ` and
`piq : ℚ`, so that every structural and arithmetic step of the source
is mirrored exactly.  Fallible operations (Python exceptions:
`ValueError` from `float()`/`int()`, `IndexError` on `[0]` of an empty
string or list, `ZeroDivisionError`, and numpy broadcast errors on
slice assignment) are modelled by `Option`, with `none` for a raised
exception.
-/

namespace Wavegen

/-! ### Kernel-computable rational arithmetic

The `Rat` arithmetic of the standard library is `@[irreducible]`; so that
concrete runs of the model can be checked by `decide`, the model uses the
following wrappers, built from the reducible `mkRat`, and the `_eq` bridge
lemmas relate them to the standard operations for symbolic reasoning. -/

def qadd (a b : ℚ) : ℚ := mkRat (a.num * b.den + b.num * a.den) (a.den * b.den)

def qneg (a : ℚ) : ℚ := mkRat (-a.num) a.den

def qsub (a b : ℚ) : ℚ := qadd a (qneg b)

def qmul (a b : ℚ) : ℚ := mkRat (a.num * b.num) (a.den * b.den)

def qdiv (a b : ℚ) : ℚ :=
  if b.num = 0 then 0 else mkRat (a.num * b.den * b.num.sign) (a.den * b.num.natAbs)

def qpow10 (k : ℕ) : ℚ := mkRat ((10 ^ k : ℕ) : ℤ) 1

theorem qadd_eq (a b : ℚ) : qadd a b = a + b := by
  have ha : ((a.den : ℚ)) ≠ 0 := Nat.cast_ne_zero.mpr a.den_nz
  have hb : ((b.den : ℚ)) ≠ 0 := Nat.cast_ne_zero.mpr b.den_nz
  rw [qadd, Rat.mkRat_eq_divInt, Rat.divInt_eq_div]
  push_cast
  conv_rhs => rw [← Rat.num_div_den a, ← Rat.num_div_den b]
  rw [div_add_div _ _ ha hb]
  congr 1
  ring

theorem qneg_eq (a : ℚ) : qneg a = -a := by
  rw [qneg, Rat.mkRat_eq_divInt, Rat.divInt_eq_div]
  push_cast
  rw [neg_div, Rat.num_div_den]

theorem qsub_eq (a b : ℚ) : qsub a b = a - b := by
  rw [qsub, qadd_eq, qneg_eq, sub_eq_add_neg]

theorem qmul_eq (a b : ℚ) : qmul a b = a * b := by
  rw [qmul, Rat.mkRat_eq_divInt, Rat.divInt_eq_div]
  push_cast
  conv_rhs => rw [← Rat.num_div_den a, ← Rat.num_div_den b]
  rw [div_mul_div_comm]

theorem qdiv_key (a b : ℚ) :
    a / b = ((a.num : ℚ) * (b.den : ℚ)) / ((a.den : ℚ) * (b.num : ℚ)) := by
  conv_lhs => rw [← Rat.num_div_den a, ← Rat.num_div_den b]
  rw [div_eq_mul_inv, inv_div, div_mul_div_comm]

theorem qdiv_eq (a b : ℚ) : qdiv a b = a / b := by
  rw [qdiv]
  by_cases h0 : b.num = 0
  · have hb : b = 0 := by
      have h1 := Rat.num_div_den b
      rw [h0] at h1
      simpa using h1.symm
    rw [if_pos h0, hb, div_zero]
  · rw [if_neg h0, Rat.mkRat_eq_divInt, Rat.divInt_eq_div]
    have ha : ((a.den : ℚ)) ≠ 0 := Nat.cast_ne_zero.mpr a.den_nz
    have hbn : ((b.num : ℚ)) ≠ 0 := Int.cast_ne_zero.mpr h0
    conv_rhs => rw [qdiv_key a b]
    rcases lt_trichotomy b.num 0 with hneg | hz | hpos
    rotate_left
    · exact absurd hz h0
    rotate_left
    · rw [Int.sign_eq_neg_one_of_neg hneg]
      have habs : ((b.num.natAbs : ℤ)) = -b.num := Int.ofNat_natAbs_of_nonpos hneg.le
      push_cast [habs]
      rw [div_eq_div_iff (by exact mul_ne_zero ha (by simpa using hbn)) (mul_ne_zero ha hbn)]
      ring
    · rw [Int.sign_eq_one_of_pos hpos]
      have habs : ((b.num.natAbs : ℤ)) = b.num := Int.natAbs_of_nonneg hpos.le
      push_cast [habs]
      rw [div_eq_div_iff (mul_ne_zero ha hbn) (mul_ne_zero ha hbn)]
      ring

theorem qpow10_eq (k : ℕ) : qpow10 k = (10 : ℚ) ^ k := by
  rw [qpow10, Rat.mkRat_one]
  push_cast
  ring

/-! ### Python primitives: string order, `lstrip`, `split`, `float()`, `int()` -/

/-- Python string `<` : lexicographic comparison of code points
(used by `min`/`max` over the two bound strings in `__cycler_generic`). -/
def charsLt : List Char → List Char → Bool
  | [], [] => false
  | [], _ :: _ => true
  | _ :: _, [] => false
  | a :: as, b :: bs =>
    if a.toNat < b.toNat then true else if b.toNat < a.toNat then false else charsLt as bs

def pyStrLt (a b : String) : Bool := charsLt a.toList b.toList

/-- Python `min([a, b])` on two strings. -/
def pyMin2 (a b : String) : String := if pyStrLt b a then b else a

/-- Python `max([a, b])` on two strings. -/
def pyMax2 (a b : String) : String := if pyStrLt a b then b else a

/-- `s[0]` on a Python string: `none` models the `IndexError` on `""`. -/
def strHead? (s : String) : Option Char := s.toList.head?

/-- Python `s.lstrip('+')`. -/
def pyLstripPlus (s : String) : String :=
  String.mk (s.toList.dropWhile (fun c => c = ('+')))

/-- Python `s.split(sep)` for a one-character separator. -/
def splitOnChar (sep : Char) : List Char → List (List Char)
  | [] => [[]]
  | c :: rest =>
    match splitOnChar sep rest with
    | [] => [[]]
    | h :: t => if c = sep then [] :: h :: t else (c :: h) :: t

/-- `(arr[0].lstrip('+').split(":") + [None])[:2]` from `__cycler_generic`:
the bounds list stored in `self.range[key]`, as (first part, optional second part). -/
def pyBounds (a0 : String) : String × Option String :=
  match splitOnChar (':') (pyLstripPlus a0).toList with
  | [] => (String.mk [], none)
  | [p] => (String.mk p, none)
  | p :: q :: _ => (String.mk p, some (String.mk q))

def digitsVal (cs : List Char) : ℕ :=
  cs.foldl (fun a c => a * 10 + (c.toNat - 48)) 0

/-- Exponent part of a Python float literal (after `e`/`E`). -/
def pyExp? (m : ℚ) (cs : List Char) : Option ℚ :=
  let sd : ℤ × List Char :=
    match cs with
    | '+' :: r => (1, r)
    | '-' :: r => (-1, r)
    | r => (1, r)
  if sd.2 ≠ [] ∧ sd.2.all Char.isDigit then
    some (if sd.1 = 1 then qmul m (qpow10 (digitsVal sd.2)) else qdiv m (qpow10 (digitsVal sd.2)))
  else none

/-- Unsigned part of a Python float literal: digits, optional `.digits`,
optional exponent; at least one mantissa digit required. -/
def pyMantissa? (cs : List Char) : Option ℚ :=
  let ip := cs.takeWhile Char.isDigit
  let rest := cs.dropWhile Char.isDigit
  match rest with
  | [] => if ip = [] then none else some ((digitsVal ip : ℚ))
  | '.' :: r2 =>
    let fp := r2.takeWhile Char.isDigit
    let r3 := r2.dropWhile Char.isDigit
    if ip = [] ∧ fp = [] then none
    else
      let m : ℚ := qadd ((digitsVal ip : ℚ)) (qdiv ((digitsVal fp : ℚ)) (qpow10 fp.length))
      match r3 with
      | [] => some m
      | c :: r4 => if c = ('e') ∨ c = ('E') then pyExp? m r4 else none
  | c :: r4 =>
    if (c = ('e') ∨ c = ('E')) ∧ ip ≠ [] then pyExp? ((digitsVal ip : ℚ)) r4 else none

/-- Python `float(s)` (without whitespace/underscore/inf/nan forms);
`none` models the raised `ValueError`. -/
def pyFloat? (s : String) : Option ℚ :=
  match s.toList with
  | '+' :: cs => pyMantissa? cs
  | '-' :: cs => (pyMantissa? cs).map qneg
  | cs => pyMantissa? cs

def pyFloatD (s : String) : ℚ := (pyFloat? s).getD 0

/-- Python `int(s)` on a string: optional sign then digits. -/
def pyInt? (s : String) : Option ℤ :=
  match s.toList with
  | '+' :: cs => if cs ≠ [] ∧ cs.all Char.isDigit then some ((digitsVal cs : ℤ)) else none
  | '-' :: cs => if cs ≠ [] ∧ cs.all Char.isDigit then some (-(digitsVal cs : ℤ)) else none
  | cs => if cs ≠ [] ∧ cs.all Char.isDigit then some ((digitsVal cs : ℤ)) else none

/-- Python `int(x)` on a float: truncation toward zero. -/
def ratTrunc (q : ℚ) : ℤ := if 0 ≤ q then ⌊q⌋ else ⌈q⌉

/-- Python `x % 1` (also `np.mod(x, 1)`): the fractional part in `[0, 1)`. -/
def pyMod1 (q : ℚ) : ℚ := qsub q ((⌊q⌋ : ℚ))

/-- Round-half-to-even to an integer (Python `round`). -/
def rndHalfEven (x : ℚ) : ℤ :=
  let f := ⌊x⌋
  let r := qsub x ((f : ℚ))
  if r < mkRat 1 2 then f else if mkRat 1 2 < r then f + 1 else if f % 2 = 0 then f else f + 1

/-- Python `round(x, 3)`. -/
def pyRound3 (x : ℚ) : ℚ := qdiv ((rndHalfEven (qmul x 1000) : ℚ)) 1000

/-! ### `WaveGen.normalize`  (wavegen.py lines 165-168) -/

/-- `normalize`: `0 ↦ 0`; else `m = n % 1`; `1` if `m == 0` else `round(m, 3)`. -/
def normalize (n : ℚ) : ℚ :=
  if n = 0 then 0
  else
    let m := pyMod1 n
    if m = 0 then 1 else pyRound3 m

/-! ### `WaveGen.__cycler_generic`  (wavegen.py lines 170-201) -/

/-- The per-key state held in `self.ptr[key]` / `self.last[key]` /
`self.range[key]`; the key being absent from all three dicts is
modelled by `Option KeyState` being `none`. -/
structure KeyState where
  ptr : ℕ
  last : ℚ
  rng : Option (String × Option String)
deriving DecidableEq

def KeyState.fresh : KeyState := ⟨0, 0, none⟩

def ptrOf (oks : Option KeyState) : ℕ := (oks.getD KeyState.fresh).ptr

def lastOf (oks : Option KeyState) : ℚ := (oks.getD KeyState.fresh).last

def rngOf (oks : Option KeyState) : Option (String × Option String) :=
  (oks.getD KeyState.fresh).rng

/-- `WaveGen.__cycler_generic(arr, key)`, acting on the state of one key.
Returns the produced float and the new key state, `none` on a raised
exception. -/
def cyclerGeneric (arr : List String) (oks : Option KeyState) : Option (ℚ × KeyState) :=
  match arr with
  | [] => none
  | a0 :: _ =>
    let ks := oks.getD KeyState.fresh
    match strHead? a0 with
    | none => none
    | some c0 =>
      if c0 = ('+') then
        -- accumulate mode
        let v0 := arr.getD (ks.ptr % arr.length) (String.mk [])
        -- `if key not in self.range:` initialise bounds and take value from them
        let rng := match ks.rng with
          | some r => r
          | none => pyBounds a0
        let value1 := match ks.rng with
          | some _ => v0
          | none => (pyBounds a0).1
        match strHead? value1 with
        | none => none
        | some cv =>
          -- `if value[0] == "+":` advance and re-fetch
          let ptr2 := if cv = ('+') then ks.ptr + 1 else ks.ptr
          let value2 := if cv = ('+') then arr.getD (ptr2 % arr.length) (String.mk []) else value1
          let finish : Option (ℚ × KeyState) :=
            match pyFloat? value2 with
            | none => none
            | some dv => some (qadd ks.last dv, ⟨ptr2 + 1, qadd ks.last dv, some rng⟩)
          match rng.2 with
          | some b1 =>
            if b1.toList ≠ [] then
              -- `if self.range[key][1]:` bounded accumulate
              match pyFloat? (pyMin2 rng.1 b1), pyFloat? (pyMax2 rng.1 b1),
                    pyFloat? value2 with
              | some lo, some hi, some dv =>
                if qadd ks.last dv < lo ∨ hi ≤ qadd ks.last dv then
                  -- wrap: `self.last[key] = float(self.range[key][0])`
                  match pyFloat? rng.1 with
                  | none => none
                  | some ln => some (ln, ⟨ptr2, ln, some rng⟩)
                else finish
              | _, _, _ => none
            else finish
          | none => finish
      else
        -- normal (repeat) mode
        match pyFloat? (arr.getD (ks.ptr % arr.length) (String.mk [])) with
        | none => none
        | some v => some (v, ⟨ks.ptr + 1, ks.last, ks.rng⟩)

/-- The token whose `float` value the current accumulate-mode pull adds
to the running sum (the `value` of `__cycler_generic` after the
`value[0] == "+"` skip). -/
def accumToken (arr : List String) (oks : Option KeyState) : Option String :=
  match arr with
  | [] => none
  | a0 :: _ =>
    let ks := oks.getD KeyState.fresh
    let v0 := arr.getD (ks.ptr % arr.length) (String.mk [])
    let value1 := match ks.rng with
      | some _ => v0
      | none => (pyBounds a0).1
    match strHead? value1 with
    | none => none
    | some cv =>
      if cv = ('+') then some (arr.getD ((ks.ptr + 1) % arr.length) (String.mk [])) else some value1

/-- Iterated pulls on one key from a fresh state: `cyclerRun arr i` is the
result of the `i`-th pull (0-based). -/
def cyclerRun (arr : List String) : ℕ → Option (ℚ × KeyState)
  | 0 => cyclerGeneric arr none
  | n + 1 => (cyclerRun arr n).bind (fun r => cyclerGeneric arr (some r.2))

/-! ### The engine state built by `WaveGen.__init__` -/

/-- The four waveform functions of `wave_funcs` in `__init_wave`. -/
inductive WaveFn where
  | SINE
  | RAMP
  | SQUARE
  | NULL
deriving DecidableEq

/-- The attributes an instance of `WaveGen` holds after `__init__`.
`wave` is the channel number → waveform function map (`self.wave`);
`wavelength` is `int(wavelengths[0]) * cycles` (`__init_wavelength`);
`max_value` is `np.iinfo(dtype).max`; `dlen` the byte width. -/
structure WaveGen where
  nchan : ℕ
  cycles : ℤ
  phase : List String
  crop : List String
  spos : List String
  scale : List String
  voltage : ℚ
  offset : List String
  wavelengths : List String
  wavelength : ℤ
  totallength : ℤ
  datalength : ℤ
  dlen : ℕ
  max_value : ℤ
  wave : ℤ → Option WaveFn

/-- The arguments of `WaveGen.__init__` (sequence arguments already in
their `tolist` token-list form, as the CLI's `comma_list` delivers them). -/
structure WArgs where
  nchan : ℕ
  cycles : ℤ
  wavelength : List String
  totallength : Option ℤ
  dsize : ℤ
  wave : String
  phase : List String
  scale : List String
  crop : List String
  spos : List String
  voltage : ℚ
  offset : List String

/-- `list(range(a, b))` on integers. -/
def pyRangeInt (a b : ℤ) : List ℤ :=
  (List.range (b - a).toNat).map (fun i => a + (i : ℤ))

/-- `WaveGen.get_channels`: `ALL`/`ODD`/`EVEN` or a comma list with `a-b`
ranges; `none` models `ValueError` from `int()`. -/
def getChannels (nchan : ℕ) (chans : String) : Option (List ℤ) :=
  if chans.toList.map Char.toUpper = ("ALL" : String).toList then
    some ((List.range nchan).map (fun i => (i : ℤ) + 1))
  else if chans.toList.map Char.toUpper = ("ODD" : String).toList then
    some ((List.range ((nchan + 1) / 2)).map (fun i => 1 + 2 * (i : ℤ)))
  else if chans.toList.map Char.toUpper = ("EVEN" : String).toList then
    some ((List.range (nchan / 2)).map (fun i => 2 + 2 * (i : ℤ)))
  else
    (splitOnChar (',') chans.toList).foldlM
      (fun acc tok =>
        if tok.contains ('-') then
          match (splitOnChar ('-') tok).mapM (fun cs => pyInt? (String.mk cs)) with
          | some (p0 :: p1 :: _) => some (acc ++ pyRangeInt p0 (p1 + 1))
          | some _ => none
          | none => none
        else
          match pyInt? (String.mk tok) with
          | some v => some (acc ++ [v])
          | none => none)
      []

/-- Lookup in the `wave_funcs` dict of `__init_wave`; `none` models the
`KeyError` for an unknown selector. -/
def waveFnOf (sel : String) : Option WaveFn :=
  if sel = ("SINE" : String) then some WaveFn.SINE
  else if sel = ("RAMP" : String) then some WaveFn.RAMP
  else if sel = ("SQUARE" : String) then some WaveFn.SQUARE
  else if sel = ("NULL" : String) then some WaveFn.NULL
  else none

/-- `WaveGen.__init_wave`: parse `FUNC:channels[/FUNC:channels...]` into the
channel → function map; `none` models the unpack `ValueError` (token arity
other than 2) and the errors of `get_channels`/`wave_funcs`. -/
def parseWaveMap (s : String) (nchan : ℕ) : Option (ℤ → Option WaveFn) :=
  (splitOnChar ('/') s.toList).foldlM
    (fun m part =>
      match splitOnChar (':') part with
      | [sel, chs] =>
        match waveFnOf (String.mk sel), getChannels nchan (String.mk chs) with
        | some fn, some cs => some (fun k => if k ∈ cs then some fn else m k)
        | _, _ => none
      | _ => none)
    (fun _ => none)

/-- The valid `dsize` values and the byte width they select (`__init_dtype`). -/
def dsizeLen (dsize : ℤ) : Option ℕ :=
  if dsize = 2 ∨ dsize = 16 then some 2
  else if dsize = 4 ∨ dsize = 32 then some 4
  else none

/-- `WaveGen.__init__`: builds the engine state; `none` models the
`ValueError` for an invalid `dsize`, the `IndexError`/`ValueError` in
`__init_wavelength`, and selector parse errors.  Note the Python
truthiness test `totallength if totallength else self.wavelength`:
a `totallength` of `0` falls back to the wavelength. -/
def mkWaveGen (a : WArgs) : Option WaveGen :=
  match a.wavelength.head? with
  | none => none
  | some w0 =>
    match pyInt? w0 with
    | none => none
    | some w0i =>
      let wl := w0i * a.cycles
      let tl := match a.totallength with
        | some t => if t = 0 then wl else t
        | none => wl
      match dsizeLen a.dsize with
      | none => none
      | some dlen =>
        match parseWaveMap a.wave a.nchan with
        | none => none
        | some wmap =>
          some ⟨a.nchan, a.cycles, a.phase, a.crop, a.spos, a.scale, a.voltage, a.offset,
                a.wavelength, wl, tl, tl * a.nchan, dlen, 2 ^ (8 * dlen - 1) - 1, wmap⟩

/-! ### Waveform functions  (wavegen.py lines 221-231) -/

/-- `np.linspace(a, b, n)` (endpoint included). -/
def linspace (a b : ℚ) (n : ℕ) : List ℚ :=
  if n = 0 then []
  else if n = 1 then [a]
  else (List.range n).map (fun i => qadd a (qdiv (qmul (qsub b a) ((i : ℚ))) (qsub ((n : ℚ)) 1)))

/-- `np.sign` on a float. -/
def qSign (q : ℚ) : ℚ := if q < 0 then -1 else if q = 0 then 0 else 1

/-- `WaveGen.__gen_sine`: `np.sin(np.linspace(-phase, -phase + (cycles*2)*pi,
wavelength))`, with `np.sin` and `np.pi` abstracted as `sinq`/`piq`;
`none` models the `ValueError` of `linspace` on a negative count. -/
def genSine (g : WaveGen) (sinq : ℚ → ℚ) (piq : ℚ) (wavelength : ℤ) (phase : ℚ) :
    Option (List ℚ) :=
  if wavelength < 0 then none
  else some ((linspace (qneg phase)
    (qadd (qneg phase) (qmul (qmul ((g.cycles : ℚ)) 2) piq)) wavelength.toNat).map sinq)

/-- The four generators, each `(wavelength, phase) → samples`.
`RAMP` is `np.mod(np.linspace(0, cycles, wavelength) + phase, 1)`;
`SQUARE` is `np.sign` of `__gen_sine`; `NULL` is
`np.zeros(self.wavelength)`, ignoring both arguments. -/
def genWave (g : WaveGen) (sinq : ℚ → ℚ) (piq : ℚ) (fn : WaveFn) (wavelength : ℤ)
    (phase : ℚ) : Option (List ℚ) :=
  match fn with
  | WaveFn.SINE => genSine g sinq piq wavelength phase
  | WaveFn.RAMP =>
    if wavelength < 0 then none
    else some ((linspace 0 (g.cycles : ℚ) wavelength.toNat).map (fun x => pyMod1 (qadd x phase)))
  | WaveFn.SQUARE => (genSine g sinq piq wavelength phase).map (fun l => l.map qSign)
  | WaveFn.NULL =>
    if g.wavelength < 0 then none else some (List.replicate g.wavelength.toNat 0)

/-! ### `WaveGen.generate`  (wavegen.py lines 130-158) -/

/-- Wrap an integer into the signed range of a `w`-byte integer type
(the behaviour of numpy's fixed-width arithmetic and `astype`). -/
def toSigned (w : ℕ) (z : ℤ) : ℤ :=
  (z + 2 ^ (8 * w - 1)) % 2 ^ (8 * w) - 2 ^ (8 * w - 1)

/-- Resolve one endpoint of a Python slice `[start:stop]` against a
sequence of length `len`. -/
def pySliceIdx (len : ℕ) (i : ℤ) : ℕ :=
  if i < 0 then ((len : ℤ) + i).toNat else min i.toNat len

/-- Python list/array slicing `l[start:stop]`. -/
def listSlice (l : List ℤ) (start stop : ℤ) : List ℤ :=
  let a := pySliceIdx l.length start
  let b := pySliceIdx l.length stop
  (l.drop a).take (b - a)

/-- The length of the strided view `self.data[chan::self.nchan]`
(one channel's track) for a flat buffer of length `datalength`. -/
def trackLen (g : WaveGen) (c : ℕ) : ℕ :=
  (g.datalength.toNat - c + g.nchan - 1) / g.nchan

/-- The per-channel resolved parameters pulled by `generate`
(after the unit conversions of the `__get_*` helpers). -/
structure Params where
  scale : ℚ
  wavelength : ℤ
  phase : ℚ
  crop : ℤ
  spos : ℤ
  offset : ℤ
deriving DecidableEq

/-- The cycler dictionaries, keyed by attribute name. -/
def Cyclers := String → Option KeyState

def freshCyclers : Cyclers := fun _ => none

def updateCyc (st : Cyclers) (key : String) (ks : KeyState) : Cyclers :=
  fun k => if k = key then some ks else st k

/-- One keyed pull: `self.__cycler_generic(arr, key)` with the state
threaded through the dictionaries. -/
def pull (st : Cyclers) (key : String) (arr : List String) : Option (ℚ × Cyclers) :=
  (cyclerGeneric arr (st key)).map (fun r => (r.1, updateCyc st key r.2))

/-- The six pulls of `generate` in source order (lines 141-146) with the
unit conversions of `__get_scale` / `__get_wavelength` / `__get_phase` /
`__get_crop` / `__get_spos` / `__get_offset`; `none` also models the
`ZeroDivisionError` when `voltage` is zero. -/
def pullParams (g : WaveGen) (piq : ℚ) (st : Cyclers) : Option (Params × Cyclers) :=
  match pull st ("scale" : String) g.scale with
  | none => none
  | some s =>
    match pull s.2 ("wave" : String) g.wavelengths with
    | none => none
    | some w =>
      match pull w.2 ("phase" : String) g.phase with
      | none => none
      | some p =>
        match pull p.2 ("crop" : String) g.crop with
        | none => none
        | some c =>
          match pull c.2 ("spos" : String) g.spos with
          | none => none
          | some sp =>
            match pull sp.2 ("offset" : String) g.offset with
            | none => none
            | some o =>
              if g.voltage = 0 then none
              else
                some (⟨normalize s.1, ratTrunc w.1 * g.cycles, qdiv (qmul p.1 piq) 180,
                       ratTrunc c.1, ratTrunc sp.1,
                       ratTrunc (qmul (qdiv o.1 g.voltage) ((g.max_value : ℚ)))⟩, o.2)

/-- The flat output buffer `self.data`, as a map from flat index to the
stored (already width-wrapped) sample. -/
def Buf := ℕ → ℤ

/-- The accumulating state of the channel loop of `generate`:
buffer, cycler dictionaries, and the resolved parameters so far. -/
structure GenState where
  data : Buf
  cyc : Cyclers
  params : List (ℕ × Params)

/-- The slice bounds of the write window `self.data[chan::nchan][d0:d1]`,
resolved against the track length: `d0 = min(spos, totallength)`,
`d1 = min(d0 + wavelength - crop, totallength)`. -/
def windowBounds (g : WaveGen) (c : ℕ) (p : Params) : ℕ × ℕ :=
  let d0 := min p.spos g.totallength
  let d1 := min (d0 + p.wavelength - p.crop) g.totallength
  (pySliceIdx (trackLen g c) d0, pySliceIdx (trackLen g c) d1)

/-- `self.data[chan::self.nchan][d0:d1] = (gen_wave(wavelength, phase) *
(self.max_value * scale)).astype(self.dtype)[w0:w1]` — scale, truncate,
width-wrap, slice with `w0 = 0`, `w1 = d1 - d0`, then assign under numpy
broadcasting (`none` models the broadcast `ValueError` on a shape
mismatch). -/
def writeWindow (g : WaveGen) (c : ℕ) (p : Params) (ws : List ℚ) (buf : Buf) :
    Option Buf :=
  let d0 := min p.spos g.totallength
  let d1 := min (d0 + p.wavelength - p.crop) g.totallength
  let a := (windowBounds g c p).1
  let b := (windowBounds g c p).2
  let rhsFull := ws.map (fun v =>
    toSigned g.dlen (ratTrunc (qmul v (qmul ((g.max_value : ℚ)) p.scale))))
  let rhs := listSlice rhsFull 0 (d1 - d0)
  if rhs.length = b - a then
    some (fun q => if q % g.nchan = c ∧ a ≤ q / g.nchan ∧ q / g.nchan < b then
            rhs.getD (q / g.nchan - a) 0 else buf q)
  else if rhs.length = 1 then
    some (fun q => if q % g.nchan = c ∧ a ≤ q / g.nchan ∧ q / g.nchan < b then
            rhs.getD 0 0 else buf q)
  else none

/-- `self.data[chan::self.nchan] += offset`: add the resolved offset to
every sample of the channel's track, wrapping in the output width. -/
def addOffset (g : WaveGen) (c : ℕ) (off : ℤ) (buf : Buf) : Buf :=
  fun q => if q % g.nchan = c ∧ q < g.datalength.toNat then
    toSigned g.dlen (buf q + off) else buf q

/-- One iteration of the channel loop of `generate`: skip when
`__get_wave(chan + 1)` is `None`, otherwise pull parameters, synthesize,
write the window and add the offset. -/
def processChannel (g : WaveGen) (sinq : ℚ → ℚ) (piq : ℚ) (c : ℕ) (acc : GenState) :
    Option GenState :=
  match g.wave ((c : ℤ) + 1) with
  | none => some acc
  | some fn =>
    match pullParams g piq acc.cyc with
    | none => none
    | some r =>
      match genWave g sinq piq fn r.1.wavelength r.1.phase with
      | none => none
      | some ws =>
        match writeWindow g c r.1 ws acc.data with
        | none => none
        | some buf1 => some ⟨addOffset g c r.1.offset buf1, r.2, acc.params ++ [(c, r.1)]⟩

/-- `WaveGen.generate`: zero the buffer (`none` models the numpy errors
for a negative `datalength` or a zero-column reshape) and run the channel
loop; the cycler dictionaries persist across calls and are passed in. -/
def generate (g : WaveGen) (sinq : ℚ → ℚ) (piq : ℚ) (st : Cyclers) : Option GenState :=
  if g.datalength < 0 ∨ g.nchan = 0 then none
  else (List.range g.nchan).foldlM (fun acc c => processChannel g sinq piq c acc)
    ⟨fun _ => 0, st, []⟩

/-! ### Concrete configurations used by counterexamples and witnesses -/

/-- One NULL channel, wavelength 10, total length 20, crop 12 (> wavelength). -/
def cfgCrop : WArgs :=
  ⟨1, 1, [("10" : String)], some 20, 2, ("NULL:ALL" : String), [("0" : String)],
   [("1" : String)], [("12" : String)], [("0" : String)], 10, [("0" : String)]⟩

/-- Two NULL channels, spos sequence of length 2. -/
def cfgTwoSpos : WArgs :=
  ⟨2, 1, [("10" : String)], none, 2, ("NULL:ALL" : String), [("0" : String)],
   [("1" : String)], [("0" : String)], [("1" : String), ("2" : String)], 10,
   [("0" : String)]⟩

/-- One NULL channel, offset 20 V against a 10 V range: resolved offset 65534. -/
def cfgBigOffset : WArgs :=
  ⟨1, 1, [("10" : String)], none, 2, ("NULL:ALL" : String), [("0" : String)],
   [("1" : String)], [("0" : String)], [("10" : String)], 10, [("20" : String)]⟩

/-- `cycles = 2` with base wavelength token `10`. -/
def cfgCycles2 : WArgs :=
  ⟨1, 2, [("10" : String)], none, 2, ("NULL:ALL" : String), [("0" : String)],
   [("1" : String)], [("0" : String)], [("0" : String)], 10, [("0" : String)]⟩

/-- Channel 1 mapped to NULL, channel 2 unmapped. -/
def cfgSkip : WArgs :=
  ⟨2, 1, [("4" : String)], none, 2, ("NULL:1" : String), [("0" : String)],
   [("1" : String)], [("0" : String)], [("0" : String)], 10, [("5" : String)]⟩

/-- One NULL channel with a strict window: wavelength 4, spos 2, crop 1,
offset 5 V of 10 V. -/
def cfgWin : WArgs :=
  ⟨1, 1, [("4" : String)], none, 2, ("NULL:ALL" : String), [("0" : String)],
   [("1" : String)], [("1" : String)], [("2" : String)], 10, [("5" : String)]⟩

/-! ### Helper lemmas -/

theorem option_map_extract {α β : Type _} {o : Option α} {x : α} {f : α → β} {b : β}
    (ho : o = some x) (h : o.map f = some b) : f x = b := by
  rw [ho, Option.map_some'] at h
  exact (Option.some.injEq _ _).mp h

theorem charsLt_asymm : ∀ as bs : List Char, charsLt as bs = true → charsLt bs as = false
  | [], [] => by simp [charsLt]
  | [], _ :: _ => by simp [charsLt]
  | _ :: _, [] => by simp [charsLt]
  | a :: as, b :: bs => by
    simp only [charsLt]
    intro h
    by_cases h1 : a.toNat < b.toNat
    · rw [if_neg (Nat.lt_asymm h1), if_pos h1]
    · rw [if_neg h1] at h
      by_cases h2 : b.toNat < a.toNat
      · rw [if_pos h2] at h
        exact absurd h (by simp)
      · rw [if_neg h2] at h
        rw [if_neg h2, if_neg h1]
        exact charsLt_asymm as bs h

theorem charsLt_total_eq : ∀ as bs : List Char,
    charsLt as bs = false → charsLt bs as = false → as = bs
  | [], [] => by simp
  | [], _ :: _ => by simp [charsLt]
  | _ :: _, [] => by simp [charsLt]
  | a :: as, b :: bs => by
    simp only [charsLt]
    intro h1 h2
    by_cases ha : a.toNat < b.toNat
    · rw [if_pos ha] at h1
      exact absurd h1 (by simp)
    · by_cases hb : b.toNat < a.toNat
      · rw [if_pos hb] at h2
        exact absurd h2 (by simp)
      · rw [if_neg ha, if_neg hb] at h1
        rw [if_neg hb, if_neg ha] at h2
        have hab : a = b := Char.ext (UInt32.ext
          (Nat.le_antisymm (Nat.le_of_not_lt hb) (Nat.le_of_not_lt ha)))
        rw [hab, charsLt_total_eq as bs h1 h2]

/-- The Python `min`/`max` of a two-string list pick the two strings in
one of the two orders. -/
theorem pyMinMax_pair (a b : String) :
    (pyMin2 a b = a ∧ pyMax2 a b = b) ∨ (pyMin2 a b = b ∧ pyMax2 a b = a) := by
  rw [pyMin2, pyMax2, pyStrLt, pyStrLt]
  by_cases h1 : charsLt b.toList a.toList = true
  · right
    rw [if_pos h1, if_neg (by rw [charsLt_asymm _ _ h1]; simp)]
    exact ⟨rfl, rfl⟩
  · have h1f : charsLt b.toList a.toList = false := by
      revert h1
      cases charsLt b.toList a.toList <;> simp
    rw [if_neg (by rw [h1f]; simp)]
    by_cases h2 : charsLt a.toList b.toList = true
    · left
      rw [if_pos h2]
      exact ⟨rfl, rfl⟩
    · have h2f : charsLt a.toList b.toList = false := by
        revert h2
        cases charsLt a.toList b.toList <;> simp
      have heq : a = b := by
        have hl := charsLt_total_eq _ _ h2f h1f
        cases a
        cases b
        exact congrArg String.mk (by simpa [String.toList] using hl)
      left
      rw [if_neg (by rw [h2f]; simp), heq]
      exact ⟨rfl, rfl⟩

/-- A token `float()` accepts is not the empty string. -/
theorem pyFloat?_ne_nil {s : String} {q : ℚ} (h : pyFloat? s = some q) :
    s.toList ≠ [] := by
  intro hnil
  rw [pyFloat?, hnil] at h
  simp [pyMantissa?] at h

/-- Inversion of `mkWaveGen`: when the constructor succeeds, every stored
attribute is determined by the arguments. -/
theorem mkWaveGen_inv (a : WArgs) (g : WaveGen) (hg : mkWaveGen a = some g) :
    ∃ w0 w0i wmap dlen,
      a.wavelength.head? = some w0 ∧ pyInt? w0 = some w0i ∧
      parseWaveMap a.wave a.nchan = some wmap ∧ dsizeLen a.dsize = some dlen ∧
      g = ⟨a.nchan, a.cycles, a.phase, a.crop, a.spos, a.scale, a.voltage, a.offset,
           a.wavelength, w0i * a.cycles,
           (match a.totallength with
            | some t => if t = 0 then w0i * a.cycles else t
            | none => w0i * a.cycles),
           (match a.totallength with
            | some t => if t = 0 then w0i * a.cycles else t
            | none => w0i * a.cycles) * a.nchan,
           dlen, 2 ^ (8 * dlen - 1) - 1, wmap⟩ := by
  rcases hx : a.wavelength.head? with _ | w0
  · rw [mkWaveGen, hx] at hg
    exact absurd hg (by simp)
  simp only [mkWaveGen, hx] at hg
  rcases hy : pyInt? w0 with _ | w0i
  · rw [hy] at hg
    exact absurd hg (by simp)
  simp only [hy] at hg
  rcases hd : dsizeLen a.dsize with _ | dlen
  · rw [hd] at hg
    exact absurd hg (by simp)
  simp only [hd] at hg
  rcases hm : parseWaveMap a.wave a.nchan with _ | wmap
  · rw [hm] at hg
    exact absurd hg (by simp)
  simp only [hm, Option.some.injEq] at hg
  refine ⟨w0, w0i, wmap, dlen, rfl, ?_, ?_, ?_, hg.symm⟩ <;>
    first
    | exact hy
    | exact hm
    | exact hd
    | rfl

/-! ### Claim C1 -/

/-- Claim C1 (amended): for a bounded accumulate-mode spec whose bound
strings compare in the same order as their float values
(`lo = float(min) ≤ hi = float(max)`), every value an accumulate pull
returns lies in the closed interval `[lo, hi]`, and is either
`float(bound0)` — the float of the *first declared* bound, which is the
wrap target — or lies in `[lo, hi)`; and on any pull whose running sum
plus current delta falls below `lo` or reaches `hi`, the value returned
is exactly `float(bound0)` (not necessarily the lower bound, as the
original claim stated). -/
theorem claim_C1 (a0 : String) (rest : List String) (b0 b1 : String)
    (q0 lo hi : ℚ) (ks : KeyState)
    (hplus : strHead? a0 = some ('+'))
    (hb : pyBounds a0 = (b0, some b1)) (hb1 : b1.toList ≠ [])
    (hq0 : pyFloat? b0 = some q0)
    (hlo : pyFloat? (pyMin2 b0 b1) = some lo)
    (hhi : pyFloat? (pyMax2 b0 b1) = some hi)
    (hlohi : lo ≤ hi)
    (hrng : ks.rng = none ∨ ks.rng = some (b0, some b1)) :
    ∀ v ks2, cyclerGeneric (a0 :: rest) (some ks) = some (v, ks2) →
      (lo ≤ v ∧ v ≤ hi) ∧ (v = q0 ∨ v < hi) ∧
      (∀ tok dv, accumToken (a0 :: rest) (some ks) = some tok → pyFloat? tok = some dv →
        (qadd ks.last dv < lo ∨ hi ≤ qadd ks.last dv) → v = q0) := by
  intro v ks2 hstep
  have hq0lohi : q0 = lo ∨ q0 = hi := by
    rcases pyMinMax_pair b0 b1 with ⟨hm, hM⟩ | ⟨hm, hM⟩
    · rw [hm, hq0] at hlo
      exact Or.inl (Option.some.injEq _ _ |>.mp hlo)
    · rw [hM, hq0] at hhi
      exact Or.inr (Option.some.injEq _ _ |>.mp hhi)
  have conc_q0 : lo ≤ q0 ∧ q0 ≤ hi := by
    rcases hq0lohi with h | h <;> rw [h]
    · exact ⟨le_refl lo, hlohi⟩
    · exact ⟨hlohi, le_refl hi⟩
  have core : ∀ (V : String) (P : ℕ),
      accumToken (a0 :: rest) (some ks) = some V →
      (match pyFloat? (pyMin2 b0 b1), pyFloat? (pyMax2 b0 b1), pyFloat? V with
       | some lo, some hi, some dv =>
         if qadd ks.last dv < lo ∨ hi ≤ qadd ks.last dv then
           match pyFloat? b0 with
           | none => none
           | some ln => some (ln, (⟨P, ln, some (b0, some b1)⟩ : KeyState))
         else
           match pyFloat? V with
           | none => none
           | some dv2 =>
             some (qadd ks.last dv2, (⟨P + 1, qadd ks.last dv2, some (b0, some b1)⟩ : KeyState))
       | _, _, _ => none) = some (v, ks2) →
      (lo ≤ v ∧ v ≤ hi) ∧ (v = q0 ∨ v < hi) ∧
      (∀ tok dv, accumToken (a0 :: rest) (some ks) = some tok → pyFloat? tok = some dv →
        (qadd ks.last dv < lo ∨ hi ≤ qadd ks.last dv) → v = q0) := by
    intro V P haccum hstep2
    rcases hdv : pyFloat? V with _ | dv
    · rw [hlo, hhi, hdv] at hstep2
      exact absurd hstep2 (by simp)
    · simp only [hlo, hhi, hdv] at hstep2
      by_cases hcond : qadd ks.last dv < lo ∨ hi ≤ qadd ks.last dv
      · rw [if_pos hcond, hq0] at hstep2
        simp only [Option.some.injEq, Prod.mk.injEq] at hstep2
        obtain ⟨hv, _⟩ := hstep2
        subst hv
        exact ⟨conc_q0, Or.inl rfl, fun _ _ _ _ _ => rfl⟩
      · rw [if_neg hcond] at hstep2
        simp only [Option.some.injEq, Prod.mk.injEq] at hstep2
        obtain ⟨hv, _⟩ := hstep2
        subst hv
        rw [not_or, not_lt, not_le] at hcond
        refine ⟨⟨hcond.1, le_of_lt hcond.2⟩, Or.inr hcond.2, ?_⟩
        intro tok dv2 htok hdv2 hcnd2
        rw [haccum, Option.some.injEq] at htok
        subst htok
        rw [hdv, Option.some.injEq] at hdv2
        subst hdv2
        rcases hcnd2 with hcnd2 | hcnd2
        · exact absurd hcnd2 (not_lt.mpr hcond.1)
        · exact absurd hcnd2 (not_le.mpr hcond.2)
  rcases hrng with hr | hr
  · -- range not yet initialised: the current value is the stripped first bound b0
    rcases hsh : strHead? b0 with _ | cv
    · exact absurd (by rw [strHead?] at hsh; exact List.head?_eq_none_iff.mp hsh)
        (pyFloat?_ne_nil hq0)
    by_cases hcv : cv = ('+')
    · simp only [cyclerGeneric, Option.getD_some, hplus, if_pos rfl, if_true, hr, hb, hsh,
        if_pos hb1, if_pos hcv] at hstep
      refine core _ (ks.ptr + 1) ?_ hstep
      simp only [accumToken, Option.getD_some, hr, hb, hsh, if_pos hcv]
    · simp only [cyclerGeneric, Option.getD_some, hplus, if_pos rfl, if_true, hr, hb, hsh,
        if_pos hb1, if_neg hcv] at hstep
      refine core _ ks.ptr ?_ hstep
      simp only [accumToken, Option.getD_some, hr, hb, hsh, if_neg hcv]
  · -- range already stored: the current value is the cursor token
    rcases hsh : strHead? ((a0 :: rest).getD (ks.ptr % (a0 :: rest).length) (String.mk []))
      with _ | cv
    · rw [cyclerGeneric] at hstep
      simp only [Option.getD_some, hplus, if_pos rfl, if_true, hr, hsh] at hstep
      exact absurd hstep (by simp)
    by_cases hcv : cv = ('+')
    · simp only [cyclerGeneric, Option.getD_some, hplus, if_pos rfl, if_true, hr, hsh,
        if_pos hb1, if_pos hcv] at hstep
      refine core _ (ks.ptr + 1) ?_ hstep
      simp only [accumToken, Option.getD_some, hr, hsh, if_pos hcv]
    · simp only [cyclerGeneric, Option.getD_some, hplus, if_pos rfl, if_true, hr, hsh,
        if_pos hb1, if_neg hcv] at hstep
      refine core _ ks.ptr ?_ hstep
      simp only [accumToken, Option.getD_some, hr, hsh, if_neg hcv]

/-- Claim C1, counterexample: on the spec `+7:-7,-2` (declared bounds 7
and -7, so lower = -7, upper = 7) the very first pull — whose running
sum plus delta, 7, reaches the upper bound — returns 7, which neither
lies in `[-7, 7)` nor equals the lower bound -7. -/
theorem claim_C1_cex :
    cyclerGeneric [("+7:-7" : String), ("-2" : String)] none =
      some (7, ⟨0, 7, some (("7" : String), some ("-7" : String))⟩) ∧
    pyFloat? ("7" : String) = some 7 ∧ pyFloat? ("-7" : String) = some (-7) ∧
    ¬ ((7 : ℚ) < 7) ∧ (7 : ℚ) ≠ -7 :=
  ⟨by decide, by decide, by decide, by decide, by decide⟩

/-- Claim C1, witness: the amended theorem applied to the first pull of
the bounded spec `+0:10,5`. -/
theorem claim_C1_wit :
    cyclerGeneric [("+0:10" : String), ("5" : String)] (some KeyState.fresh) =
      some (0, ⟨1, 0, some (("0" : String), some ("10" : String))⟩) ∧
    ((0 : ℚ) ≤ 0 ∧ (0 : ℚ) ≤ 10) ∧ ((0 : ℚ) = 0 ∨ (0 : ℚ) < 10) := by
  have hstep : cyclerGeneric [("+0:10" : String), ("5" : String)] (some KeyState.fresh) =
      some (0, ⟨1, 0, some (("0" : String), some ("10" : String))⟩) := by decide
  have H := claim_C1 ("+0:10") [("5" : String)] ("0") ("10") 0 0 10 KeyState.fresh
    (by decide) (by decide) (by decide) (by decide) (by decide) (by decide) (by decide)
    (Or.inl rfl) 0 _ hstep
  exact ⟨hstep, H.1, H.2.1⟩

/-! ### Claim C2 -/

/-- Claim C2 (amended): the first pull on a key in accumulate mode parses
the bounds from the first token (strip leading `+`, split on `:`; a
second part is the upper bound, otherwise unbounded), stores them in the
range dictionary, and returns `float(first part)` — the declared
lower/first bound — as the first value, with the accumulator `last`
initialised to that value.  (In the unbounded case the first value is
also `float(first part)`, not `0` as the original claim stated.) -/
theorem claim_C2 (a0 : String) (rest : List String) (b0 : String) (ob1 : Option String)
    (q0 : ℚ) (d0 : Char)
    (hplus : strHead? a0 = some ('+'))
    (hb : pyBounds a0 = (b0, ob1))
    (hq0 : pyFloat? b0 = some q0)
    (hh : strHead? b0 = some d0) (hd0 : d0 ≠ ('+'))
    (hb1 : ob1 = none ∨ ∃ b1, ob1 = some b1 ∧ (b1.toList ≠ [] →
      ∃ lo hi, pyFloat? (pyMin2 b0 b1) = some lo ∧ pyFloat? (pyMax2 b0 b1) = some hi)) :
    ∃ ks, cyclerGeneric (a0 :: rest) none = some (q0, ks) ∧ ks.last = q0 ∧
      ks.rng = some (b0, ob1) := by
  have hq : qadd 0 q0 = q0 := by
    rw [qadd_eq, zero_add]
  rcases hb1 with hnone | ⟨b1, hsome, hex⟩
  · subst hnone
    simp only [cyclerGeneric, Option.getD_none, hplus, if_pos rfl, KeyState.fresh, hb,
      List.getD_cons_zero, Nat.zero_mod, hh, if_true, if_neg hd0, hq0, hq]
    exact ⟨_, rfl, rfl, rfl⟩
  · subst hsome
    by_cases hbl : b1.toList = []
    · simp only [cyclerGeneric, Option.getD_none, hplus, if_pos rfl, KeyState.fresh, hb,
        List.getD_cons_zero, Nat.zero_mod, hh, if_true, if_neg hd0, hq0, hq,
        if_neg (by simpa using hbl : ¬ b1.toList ≠ [])]
      exact ⟨_, rfl, rfl, rfl⟩
    · obtain ⟨lo, hi, hlo, hhi⟩ := hex hbl
      simp only [cyclerGeneric, Option.getD_none, hplus, if_pos rfl, KeyState.fresh, hb,
        List.getD_cons_zero, Nat.zero_mod, hh, if_true, if_neg hd0, hq0,
        if_pos (by simpa using hbl : b1.toList ≠ []), hlo, hhi]
      by_cases hw : qadd 0 q0 < lo ∨ hi ≤ qadd 0 q0
      · rw [if_pos hw]
        exact ⟨_, rfl, rfl, rfl⟩
      · rw [if_neg hw]
        simp only [hq]
        exact ⟨_, rfl, rfl, rfl⟩

/-- Claim C2, counterexample: the unbounded accumulate spec `+11.5`
returns 11.5 on the first pull, not 0 as the claim requires for
unbounded specs. -/
theorem claim_C2_cex :
    (cyclerGeneric [("+11.5" : String)] none).map Prod.fst = some (mkRat 23 2) ∧
    pyBounds ("+11.5" : String) = (("11.5" : String), none) ∧ mkRat 23 2 ≠ 0 :=
  ⟨by decide, by decide, by decide⟩

/-- Claim C2, witness: the amended theorem applied to the bounded spec
`+2:8,3`: the first pull returns the first declared bound 2 and stores
the parsed bounds. -/
theorem claim_C2_wit :
    (cyclerGeneric [("+2:8" : String), ("3" : String)] none).map Prod.fst = some 2 ∧
    (cyclerGeneric [("+2:8" : String), ("3" : String)] none).map (fun r => r.2.rng) =
      some (some (("2" : String), some ("8" : String))) := by
  obtain ⟨ks, hks, hlast, hrng⟩ := claim_C2 ("+2:8") [("3" : String)] ("2")
    (some ("8" : String)) 2 ('2') (by decide) (by decide) (by decide) (by decide)
    (by decide)
    (Or.inr ⟨("8" : String), rfl, fun _ => ⟨2, 8, by decide, by decide⟩⟩)
  rw [hks]
  exact ⟨rfl, by rw [Option.map_some', hrng]⟩

/-! ### Claim C4 -/

/-- Claim C4 (amended): `normalize` maps `0` to `0`, every other exact
integer to `1`, and every non-integer `n` to `round(n % 1, 3)`.  (The
original claim said every exact integer maps to `1`; the `n == 0` guard
of the source returns `0` there.) -/
theorem claim_C4 (n : ℚ) :
    normalize n = if n = 0 then 0 else if n.den = 1 then 1 else pyRound3 (pyMod1 n) := by
  rw [normalize]
  by_cases h0 : n = 0
  · simp [h0]
  · rw [if_neg h0, if_neg h0]
    have hm : pyMod1 n = 0 ↔ n.den = 1 := by
      rw [pyMod1, qsub_eq, sub_eq_zero]
      constructor
      · intro h
        rw [h]
        exact Rat.den_intCast _
      · intro hd
        have h1 : ((n.num : ℚ)) = n := by
          conv_rhs => rw [← Rat.num_div_den n]
          rw [hd]
          simp
        have h2 : ⌊n⌋ = n.num := by
          conv_lhs => rw [← h1]
          exact Int.floor_intCast _
        rw [h2]
        exact h1.symm
    by_cases hden : n.den = 1
    · rw [if_pos (hm.mpr hden), if_pos hden]
    · rw [if_neg (fun h => hden (hm.mp h)), if_neg hden]

/-- Claim C4, counterexample: `0` is an exact integer, yet `normalize 0`
is `0`, not `1` as the claim requires. -/
theorem claim_C4_cex : normalize 0 = 0 ∧ (0 : ℚ).den = 1 ∧ normalize 0 ≠ 1 :=
  ⟨by decide, by decide, by decide⟩

/-! ### Claim C5 -/

/-- Claim C5 (amended): the NULL waveform function ignores both the
`cycles`-scaled `wavelength` argument and the `phase` argument it is
passed, and returns an all-zero sequence whose length is
`int(first wavelength token) * cycles` — the instance's initial *scaled*
wavelength `self.wavelength`, not the unscaled base length the original
claim stated. -/
theorem claim_C5 (a : WArgs) (g : WaveGen) (hg : mkWaveGen a = some g)
    (sinq sinq2 : ℚ → ℚ) (piq piq2 : ℚ) (wl wl2 : ℤ) (ph ph2 : ℚ) :
    genWave g sinq piq WaveFn.NULL wl ph = genWave g sinq2 piq2 WaveFn.NULL wl2 ph2 ∧
    ∃ w0 w0i, a.wavelength.head? = some w0 ∧ pyInt? w0 = some w0i ∧
      g.wavelength = w0i * a.cycles ∧
      (0 ≤ w0i * a.cycles →
        genWave g sinq piq WaveFn.NULL wl ph =
          some (List.replicate (w0i * a.cycles).toNat 0)) := by
  obtain ⟨w0, w0i, wmap, dlen, hw0, hwi, hmap, hdl, hgeq⟩ := mkWaveGen_inv a g hg
  subst hgeq
  refine ⟨rfl, w0, w0i, hw0, hwi, rfl, fun hnn => ?_⟩
  simp only [genWave]
  rw [if_neg (not_lt.mpr hnn)]

/-- Claim C5, counterexample: with `cycles = 2` and wavelength token `10`
the NULL waveform has length `20`, not the unscaled base length `10`. -/
theorem claim_C5_cex :
    ((mkWaveGen cfgCycles2).bind (fun g =>
      (genWave g (fun _ => 0) 0 WaveFn.NULL 999 0).map List.length)) = some 20 ∧
    cfgCycles2.wavelength = [("10" : String)] ∧ pyInt? ("10" : String) = some 10 ∧
    cfgCycles2.cycles = 2 ∧ (20 : ℕ) ≠ 10 :=
  ⟨by decide, by decide, by decide, by decide, by decide⟩

/-- Claim C5, witness: the amended theorem evaluated on the `cycles = 2`
configuration. -/
theorem claim_C5_wit :
    ((mkWaveGen cfgCycles2).map (fun g => genWave g (fun _ => 0) 0 WaveFn.NULL 999 0)) =
      some (some (List.replicate 20 0)) ∧
    ((mkWaveGen cfgCycles2).map (fun g =>
      decide (genWave g (fun _ => 0) 0 WaveFn.NULL 999 0 =
              genWave g (fun _ => 1) (mkRat 22 7) WaveFn.NULL 5 3))) = some true := by
  obtain ⟨g, hg⟩ := Option.isSome_iff_exists.mp
    (by decide : (mkWaveGen cfgCycles2).isSome = true)
  obtain ⟨Hig, w0, w0i, hw0, hwi, hwl, Hval⟩ :=
    claim_C5 cfgCycles2 g hg (fun _ => 0) (fun _ => 1) 0 (mkRat 22 7) 999 5 0 3
  have hw0v : w0 = ("10" : String) := by
    rw [show cfgCycles2.wavelength.head? = some (("10" : String)) from by decide] at hw0
    exact (Option.some.injEq _ _).mp hw0.symm
  subst hw0v
  have hwiv : w0i = 10 := by
    rw [show pyInt? (("10" : String)) = some 10 from by decide] at hwi
    exact (Option.some.injEq _ _).mp hwi.symm
  subst hwiv
  have Hv := Hval (by decide)
  rw [show ((10 * cfgCycles2.cycles).toNat) = 20 from by decide] at Hv
  constructor
  · rw [hg, Option.map_some', Hv]
  · rw [hg, Option.map_some']
    exact congrArg some (decide_eq_true Hig)

/-! ### Claim C6 -/

/-- A repeat-mode (non-accumulate) pull returns the float of the cursor
token and advances the cursor by exactly one, leaving `last` and the
range state untouched. -/
theorem cycler_repeat_step (arr : List String) (c0 : Char) (oks : Option KeyState)
    (h0 : strHead? (arr.headD (String.mk [])) = some c0) (hc : c0 ≠ ('+')) :
    cyclerGeneric arr oks =
      (pyFloat? (arr.getD ((ptrOf oks) % arr.length) (String.mk []))).map
        (fun v => (v, ⟨ptrOf oks + 1, lastOf oks, rngOf oks⟩)) := by
  cases arr with
  | nil =>
    rw [List.headD_nil] at h0
    simp [strHead?, String.mk] at h0
  | cons a0 t =>
    rw [List.headD_cons] at h0
    simp only [cyclerGeneric, h0, if_neg hc, ptrOf, lastOf, rngOf]
    cases hv : pyFloat? ((a0 :: t).getD ((oks.getD KeyState.fresh).ptr % (a0 :: t).length)
        (String.mk [])) <;> simp [hv]

/-- Claim C6: for a repeat-mode sequence spec of length `k` whose tokens
all parse as floats, the `i`-th pull on a fresh cycler key returns
`float(spec[i % k])`, and after it the cursor stands at `i + 1` — each
pull advances the cursor by exactly 1. -/
theorem claim_C6 (arr : List String) (c0 : Char)
    (h0 : strHead? (arr.headD (String.mk [])) = some c0) (hc : c0 ≠ ('+'))
    (hp : ∀ t ∈ arr, (pyFloat? t).isSome) (i : ℕ) :
    cyclerRun arr i = some (pyFloatD (arr.getD (i % arr.length) (String.mk [])),
      ⟨i + 1, 0, none⟩) := by
  have hne : arr ≠ [] := by
    intro h
    subst h
    rw [List.headD_nil] at h0
    simp [strHead?, String.mk] at h0
  have hlen : 0 < arr.length := List.length_pos.mpr hne
  have hmem : ∀ j : ℕ, arr.getD (j % arr.length) (String.mk []) ∈ arr := by
    intro j
    have hj : j % arr.length < arr.length := Nat.mod_lt _ hlen
    rw [List.getD_eq_getElem _ _ hj]
    exact List.getElem_mem _
  have hsome : ∀ j : ℕ, pyFloat? (arr.getD (j % arr.length) (String.mk [])) =
      some (pyFloatD (arr.getD (j % arr.length) (String.mk []))) := by
    intro j
    obtain ⟨q, hq⟩ := Option.isSome_iff_exists.mp (hp _ (hmem j))
    rw [hq, pyFloatD, hq]
    rfl
  induction i with
  | zero =>
    rw [cyclerRun, cycler_repeat_step arr c0 none h0 hc]
    simp only [ptrOf, lastOf, rngOf, Option.getD_none, KeyState.fresh]
    rw [hsome 0]
    rfl
  | succ n ih =>
    rw [cyclerRun, ih, Option.some_bind, cycler_repeat_step arr c0 _ h0 hc]
    simp only [ptrOf, lastOf, rngOf, Option.getD_some]
    rw [hsome (n + 1)]
    rfl

/-- Claim C6, witness: the 4th pull (0-based) of the length-3 repeat
spec `1,2.5,3` returns `float(spec[4 % 3]) = 2.5` with the cursor at 5. -/
theorem claim_C6_wit :
    cyclerRun [("1" : String), ("2.5" : String), ("3" : String)] 4 =
      some (mkRat 5 2, ⟨5, 0, none⟩) := by
  rw [claim_C6 [("1" : String), ("2.5" : String), ("3" : String)] ('1')
    (by decide) (by decide) (by decide) 4]
  decide

/-! ### Claim C3 -/

theorem listSlice_zero (l : List ℤ) : listSlice l 0 0 = [] := by
  simp [listSlice, pySliceIdx]

/-- Claim C3 (amended): for a mapped channel whose resolved start
position is at least `totallength` with `crop ≤ wavelength`, or whose
resolved crop *equals* its resolved wavelength, the write window is
empty, the channel raises no error, and its track receives only the
resolved offset on top of the previous buffer contents.  (The original
claim allowed any `crop ≥ wavelength`; for `crop > wavelength` the numpy
slice assignment can raise a broadcast error — see the counterexample.) -/
theorem claim_C3 (g : WaveGen) (sinq : ℚ → ℚ) (piq : ℚ) (c : ℕ) (acc : GenState)
    (fn : WaveFn) (p : Params) (st2 : Cyclers) (ws : List ℚ)
    (hw : g.wave ((c : ℤ) + 1) = some fn)
    (hp : pullParams g piq acc.cyc = some (p, st2))
    (hws : genWave g sinq piq fn p.wavelength p.phase = some ws)
    (hdeg : (g.totallength ≤ p.spos ∧ p.crop ≤ p.wavelength) ∨ p.crop = p.wavelength) :
    (windowBounds g c p).1 = (windowBounds g c p).2 ∧
    ∃ buf1, writeWindow g c p ws acc.data = some buf1 ∧ (∀ q, buf1 q = acc.data q) ∧
      processChannel g sinq piq c acc =
        some ⟨addOffset g c p.offset buf1, st2, acc.params ++ [(c, p)]⟩ ∧
      (∀ q, q % g.nchan = c → q < g.datalength.toNat →
        (addOffset g c p.offset buf1) q = toSigned g.dlen (acc.data q + p.offset)) := by
  have hdd : min (min p.spos g.totallength + p.wavelength - p.crop) g.totallength =
      min p.spos g.totallength := by
    rcases hdeg with ⟨h1, h2⟩ | h1 <;> omega
  have hab : (windowBounds g c p).1 = (windowBounds g c p).2 := by
    simp only [windowBounds]
    rw [hdd]
  have hsub : min (min p.spos g.totallength + p.wavelength - p.crop) g.totallength -
      min p.spos g.totallength = 0 := by omega
  have hwwx : ∃ buf1, writeWindow g c p ws acc.data = some buf1 ∧
      ∀ q, buf1 q = acc.data q := by
    simp only [writeWindow, hsub, listSlice_zero, List.length_nil]
    rw [if_pos (by omega : 0 = (windowBounds g c p).2 - (windowBounds g c p).1)]
    refine ⟨_, rfl, fun q => ?_⟩
    rw [if_neg]
    intro hcc
    omega
  obtain ⟨buf1, hww, hbuf⟩ := hwwx
  refine ⟨hab, buf1, hww, hbuf, ?_, ?_⟩
  · simp only [processChannel, hw, hp, hws, hww]
  · intro q hq hlen
    rw [addOffset, if_pos ⟨hq, hlen⟩, hbuf q]

/-- Claim C3, counterexample: with wavelength 10, crop 12 (> wavelength)
and total length 20 the generated write slice and the sliced waveform
have different lengths (18 vs 8), so `generate` raises a numpy broadcast
error instead of producing an empty window. -/
theorem claim_C3_cex :
    ((mkWaveGen cfgCrop).map (fun g =>
      (generate g (fun _ => 0) 0 freshCyclers).isNone)) = some true ∧
    ((mkWaveGen cfgCrop).map (fun g =>
      (pullParams g 0 freshCyclers).map (fun r => (r.1.crop, r.1.wavelength)))) =
      some (some (12, 10)) :=
  ⟨by decide, by decide⟩

/-- One NULL channel whose start position 99 lies past the total length 4. -/
def cfgFar : WArgs :=
  ⟨1, 1, [("4" : String)], none, 2, ("NULL:ALL" : String), [("0" : String)],
   [("1" : String)], [("0" : String)], [("99" : String)], 10, [("5" : String)]⟩

/-- Claim C3, witness: with spos 99 ≥ totallength 4 the channel is
processed without error and its whole track ends up at the resolved
offset 16383. -/
theorem claim_C3_wit :
    ((mkWaveGen cfgFar).bind (fun g =>
      (processChannel g (fun _ => 0) 0 0 ⟨fun _ => 0, freshCyclers, []⟩).map
        (fun out => (out.data 0, out.data 3)))) = some (16383, 16383) := by
  obtain ⟨g, hg⟩ := Option.isSome_iff_exists.mp
    (by decide : (mkWaveGen cfgFar).isSome = true)
  have hw : g.wave (((0 : ℕ) : ℤ) + 1) = some WaveFn.NULL := by
    have h := option_map_extract hg
      (by decide : ((mkWaveGen cfgFar).map (fun g => g.wave 1)) = some (some WaveFn.NULL))
    rw [show (((0 : ℕ) : ℤ) + 1) = 1 from by decide]
    exact h
  have hpi := option_map_extract hg
    (by decide : ((mkWaveGen cfgFar).map (fun g =>
      (pullParams g 0 freshCyclers).isSome)) = some true)
  obtain ⟨r, hr⟩ := Option.isSome_iff_exists.mp hpi
  have hpv : r.1 = ⟨1, 4, 0, 0, 99, 16383⟩ := by
    have h := option_map_extract hg
      (by decide : ((mkWaveGen cfgFar).map (fun g =>
        (pullParams g 0 freshCyclers).map Prod.fst)) =
        some (some (⟨1, 4, 0, 0, 99, 16383⟩ : Params)))
    rw [hr, Option.map_some'] at h
    exact (Option.some.injEq _ _).mp h
  have hwsi := option_map_extract hg
    (by decide : ((mkWaveGen cfgFar).map (fun g =>
      (genWave g (fun _ => 0) 0 WaveFn.NULL 0 0).isSome)) = some true)
  obtain ⟨ws, hws0⟩ := Option.isSome_iff_exists.mp hwsi
  have hws : genWave g (fun _ => 0) 0 WaveFn.NULL r.1.wavelength r.1.phase = some ws := hws0
  have htl : g.totallength = 4 := option_map_extract hg
    (by decide : ((mkWaveGen cfgFar).map (fun g => g.totallength)) = some 4)
  have hdeg : (g.totallength ≤ r.1.spos ∧ r.1.crop ≤ r.1.wavelength) ∨
      r.1.crop = r.1.wavelength := by
    left
    rw [htl, hpv]
    exact ⟨by decide, by decide⟩
  obtain ⟨hab, buf1, hww, hbuf, hproc, hform⟩ :=
    claim_C3 g (fun _ => 0) 0 0 ⟨fun _ => 0, freshCyclers, []⟩ WaveFn.NULL r.1 r.2 ws
      hw hr hws hdeg
  have hnchan : g.nchan = 1 := option_map_extract hg
    (by decide : ((mkWaveGen cfgFar).map (fun g => g.nchan)) = some 1)
  have hdlen : g.datalength = 4 := option_map_extract hg
    (by decide : ((mkWaveGen cfgFar).map (fun g => g.datalength)) = some 4)
  have hdl2 : g.dlen = 2 := option_map_extract hg
    (by decide : ((mkWaveGen cfgFar).map (fun g => g.dlen)) = some 2)
  have h0 := hform 0 (by rw [hnchan]) (by rw [hdlen]; decide)
  have h3 := hform 3 (by rw [hnchan]) (by rw [hdlen]; decide)
  rw [hg, Option.some_bind, hproc, Option.map_some']
  refine congrArg some ?_
  show ((addOffset g 0 r.1.offset buf1) 0, (addOffset g 0 r.1.offset buf1) 3) = _
  rw [h0, h3]
  show (toSigned g.dlen (0 + r.1.offset), toSigned g.dlen (0 + r.1.offset)) = _
  rw [hdl2, hpv]
  decide

/-! ### Claim C8 -/

/-- Wrapping into the signed range is the identity on representable
values. -/
theorem toSigned_eq_self (w : ℕ) (z : ℤ) (hw : 1 ≤ w)
    (h1 : -(2 ^ (8 * w - 1)) ≤ z) (h2 : z < 2 ^ (8 * w - 1)) : toSigned w z = z := by
  rw [toSigned]
  have hM : (2 : ℤ) ^ (8 * w) = 2 ^ (8 * w - 1) * 2 := by
    rw [← pow_succ]
    congr 1
    omega
  rw [Int.emod_eq_of_lt (by linarith) (by rw [hM]; linarith)]
  ring

/-- The window write leaves every sample outside the written window of
channel `c`, and every sample of every other channel, unchanged. -/
theorem writeWindow_untouched (g : WaveGen) (c : ℕ) (p : Params) (ws : List ℚ)
    (buf buf1 : Buf) (h : writeWindow g c p ws buf = some buf1) (q : ℕ)
    (hq : ¬(q % g.nchan = c ∧ (windowBounds g c p).1 ≤ q / g.nchan ∧
            q / g.nchan < (windowBounds g c p).2)) :
    buf1 q = buf q := by
  rw [writeWindow] at h
  split at h
  · rw [Option.some.injEq] at h
    rw [← h]
    exact if_neg hq
  split at h
  · rw [Option.some.injEq] at h
    rw [← h]
    exact if_neg hq
  · exact absurd h (by simp)

/-- Claim C8 (amended): processing a mapped channel `c` adds the resolved
integer offset — wrapped in the output width — to **every** sample of
channel `c`'s full track: writing `buf1` for the buffer right after the
window write, every track sample of the output is
`toSigned dlen (buf1 q + offset)`; the positions outside the placement
window, where `buf1` still holds the previous value, therefore go from
`0` to exactly the offset whenever the offset is representable in the
output width; and no sample of any other channel's track is modified.
(The original claim's unconditional "exactly the offset" fails when the
resolved offset overflows the output integer type.) -/
theorem claim_C8 (g : WaveGen) (sinq : ℚ → ℚ) (piq : ℚ) (c : ℕ)
    (acc out : GenState) (hdle : 1 ≤ g.dlen)
    (hm : (g.wave ((c : ℤ) + 1)).isSome)
    (hstep : processChannel g sinq piq c acc = some out) :
    ∃ fn p st2 ws buf1,
      g.wave ((c : ℤ) + 1) = some fn ∧
      pullParams g piq acc.cyc = some (p, st2) ∧
      genWave g sinq piq fn p.wavelength p.phase = some ws ∧
      writeWindow g c p ws acc.data = some buf1 ∧
      out.cyc = st2 ∧ out.params = acc.params ++ [(c, p)] ∧
      (∀ q, q % g.nchan ≠ c → out.data q = acc.data q) ∧
      (∀ q, q % g.nchan = c → q < g.datalength.toNat →
        out.data q = toSigned g.dlen (buf1 q + p.offset)) ∧
      (∀ q, q % g.nchan = c → q < g.datalength.toNat →
        ¬((windowBounds g c p).1 ≤ q / g.nchan ∧ q / g.nchan < (windowBounds g c p).2) →
        out.data q = toSigned g.dlen (acc.data q + p.offset)) ∧
      (∀ q, q % g.nchan = c → q < g.datalength.toNat →
        ¬((windowBounds g c p).1 ≤ q / g.nchan ∧ q / g.nchan < (windowBounds g c p).2) →
        acc.data q = 0 → -(2 ^ (8 * g.dlen - 1)) ≤ p.offset →
        p.offset < 2 ^ (8 * g.dlen - 1) → out.data q = p.offset) := by
  obtain ⟨fn, hw⟩ := Option.isSome_iff_exists.mp hm
  simp only [processChannel, hw] at hstep
  rcases hpp : pullParams g piq acc.cyc with _ | r
  · simp only [hpp] at hstep
    exact absurd hstep (by simp)
  simp only [hpp] at hstep
  rcases hws : genWave g sinq piq fn r.1.wavelength r.1.phase with _ | ws
  · simp only [hws] at hstep
    exact absurd hstep (by simp)
  simp only [hws] at hstep
  rcases hwr : writeWindow g c r.1 ws acc.data with _ | buf1
  · simp only [hwr] at hstep
    exact absurd hstep (by simp)
  simp only [hwr, Option.some.injEq] at hstep
  subst hstep
  refine ⟨fn, r.1, r.2, ws, buf1, hw, rfl, hws, hwr, rfl, rfl, ?_, ?_, ?_, ?_⟩
  · intro q hq
    show addOffset g c r.1.offset buf1 q = acc.data q
    rw [addOffset, if_neg (by intro hcc; exact hq hcc.1)]
    exact writeWindow_untouched g c r.1 ws acc.data buf1 hwr q (by intro hcc; exact hq hcc.1)
  · intro q hq hlen
    show addOffset g c r.1.offset buf1 q = toSigned g.dlen (buf1 q + r.1.offset)
    rw [addOffset, if_pos ⟨hq, hlen⟩]
  · intro q hq hlen hout
    show addOffset g c r.1.offset buf1 q = toSigned g.dlen (acc.data q + r.1.offset)
    rw [addOffset, if_pos ⟨hq, hlen⟩,
      writeWindow_untouched g c r.1 ws acc.data buf1 hwr q (by
        intro hcc
        exact hout hcc.2)]
  · intro q hq hlen hout hzero hlo hhi
    show addOffset g c r.1.offset buf1 q = r.1.offset
    rw [addOffset, if_pos ⟨hq, hlen⟩,
      writeWindow_untouched g c r.1 ws acc.data buf1 hwr q (by
        intro hcc
        exact hout hcc.2), hzero, zero_add]
    exact toSigned_eq_self g.dlen r.1.offset hdle hlo hhi

/-- Claim C8, counterexample: with a 20 V offset against a 10 V range at
16-bit width the resolved offset is 65534, and the outside-window samples
of the processed channel end up at the wrapped value -2, not "exactly the
offset". -/
theorem claim_C8_cex :
    ((mkWaveGen cfgBigOffset).bind (fun g =>
      (generate g (fun _ => 0) 0 freshCyclers).map (fun r =>
        (r.data 0, r.params.map (fun p => p.2.offset))))) = some (-2, [65534]) ∧
    (-2 : ℤ) ≠ 65534 :=
  ⟨by decide, by decide⟩

/-- Claim C8, witness: in the window configuration (wavelength 4, spos 2,
crop 1, offset resolved to 16383) the sample at track position 0 — outside
the window `[2, 4)` — ends up exactly at the offset. -/
theorem claim_C8_wit :
    ((mkWaveGen cfgWin).bind (fun g =>
      (processChannel g (fun _ => 0) 0 0 ⟨fun _ => 0, freshCyclers, []⟩).map
        (fun out => out.data 0))) = some 16383 := by
  obtain ⟨g, hg⟩ := Option.isSome_iff_exists.mp
    (by decide : (mkWaveGen cfgWin).isSome = true)
  have hps := option_map_extract hg
    (by decide : ((mkWaveGen cfgWin).map (fun g =>
      (processChannel g (fun _ => 0) 0 0 ⟨fun _ => 0, freshCyclers, []⟩).isSome)) =
      some true)
  obtain ⟨out, hout⟩ := Option.isSome_iff_exists.mp hps
  have hdle : 1 ≤ g.dlen := by
    have h := option_map_extract hg
      (by decide : ((mkWaveGen cfgWin).map (fun g => g.dlen)) = some 2)
    omega
  have hm : (g.wave (((0 : ℕ) : ℤ) + 1)).isSome := by
    have h := option_map_extract hg
      (by decide : ((mkWaveGen cfgWin).map (fun g => (g.wave 1).isSome)) = some true)
    rw [show (((0 : ℕ) : ℤ) + 1) = 1 from by decide]
    exact h
  obtain ⟨fn, p, st2, ws, buf1, hwv, hpp, hgw, hww, hcyc, hparams, hothers, hfull,
    hoffadd, hexact⟩ :=
    claim_C8 g (fun _ => 0) 0 0 ⟨fun _ => 0, freshCyclers, []⟩ out hdle hm hout
  have hpp2 : pullParams g 0 freshCyclers = some (p, st2) := hpp
  have hpv : p = ⟨1, 4, 0, 1, 2, 16383⟩ := by
    have h := option_map_extract hg
      (by decide : ((mkWaveGen cfgWin).map (fun g =>
        (pullParams g 0 freshCyclers).map Prod.fst)) =
        some (some (⟨1, 4, 0, 1, 2, 16383⟩ : Params)))
    rw [hpp2, Option.map_some'] at h
    exact (Option.some.injEq _ _).mp h
  have hnchan : g.nchan = 1 := option_map_extract hg
    (by decide : ((mkWaveGen cfgWin).map (fun g => g.nchan)) = some 1)
  have hdlen : g.datalength = 4 := option_map_extract hg
    (by decide : ((mkWaveGen cfgWin).map (fun g => g.datalength)) = some 4)
  have hdl2 : g.dlen = 2 := option_map_extract hg
    (by decide : ((mkWaveGen cfgWin).map (fun g => g.dlen)) = some 2)
  have hwb : windowBounds g 0 p = (2, 4) := by
    have h := option_map_extract hg
      (by decide : ((mkWaveGen cfgWin).map (fun g2 =>
        windowBounds g2 0 (⟨1, 4, 0, 1, 2, 16383⟩ : Params))) = some (2, 4))
    rw [hpv]
    exact h
  have harg1 : (0 : ℕ) % g.nchan = 0 := by rw [hnchan]
  have harg2 : (0 : ℕ) < g.datalength.toNat := by
    rw [hdlen]
    decide
  have harg3 : ¬((windowBounds g 0 p).1 ≤ 0 / g.nchan ∧
      0 / g.nchan < (windowBounds g 0 p).2) := by
    rw [hwb, hnchan]
    decide
  have harg5 : -(2 ^ (8 * g.dlen - 1)) ≤ p.offset := by
    rw [hpv, hdl2]
    decide
  have harg6 : p.offset < 2 ^ (8 * g.dlen - 1) := by
    rw [hpv, hdl2]
    decide
  have h16 := hexact 0 harg1 harg2 harg3 rfl harg5 harg6
  rw [hg, Option.some_bind, hout, Option.map_some']
  refine congrArg some ?_
  rw [h16, hpv]

/-! ### Claim C7 -/

/-- Processing one channel, mapped or not, leaves every sample of every
other channel's track untouched. -/
theorem processChannel_other (g : WaveGen) (sinq : ℚ → ℚ) (piq : ℚ) (c2 : ℕ)
    (acc acc1 : GenState) (hstep : processChannel g sinq piq c2 acc = some acc1)
    (q : ℕ) (hq : q % g.nchan ≠ c2) : acc1.data q = acc.data q := by
  rcases hw : g.wave ((c2 : ℤ) + 1) with _ | fn
  · rw [processChannel, hw, Option.some.injEq] at hstep
    rw [hstep]
  · simp only [processChannel, hw] at hstep
    rcases hpp : pullParams g piq acc.cyc with _ | r
    · simp only [hpp] at hstep
      exact absurd hstep (by simp)
    simp only [hpp] at hstep
    rcases hws : genWave g sinq piq fn r.1.wavelength r.1.phase with _ | ws
    · simp only [hws] at hstep
      exact absurd hstep (by simp)
    simp only [hws] at hstep
    rcases hwr : writeWindow g c2 r.1 ws acc.data with _ | buf1
    · simp only [hwr] at hstep
      exact absurd hstep (by simp)
    simp only [hwr, Option.some.injEq] at hstep
    rw [← hstep]
    show addOffset g c2 r.1.offset buf1 q = acc.data q
    rw [addOffset, if_neg (fun hcc => hq hcc.1)]
    exact writeWindow_untouched g c2 r.1 ws acc.data buf1 hwr q (fun hcc => hq hcc.1)

/-- The channel loop never writes to the track of a channel whose
waveform assignment is `None`. -/
theorem fold_unmapped_preserve (g : WaveGen) (sinq : ℚ → ℚ) (piq : ℚ) (c : ℕ)
    (hun : g.wave ((c : ℤ) + 1) = none) :
    ∀ (cs : List ℕ) (acc out : GenState),
      cs.foldlM (fun a c2 => processChannel g sinq piq c2 a) acc = some out →
      ∀ q, q % g.nchan = c → out.data q = acc.data q := by
  intro cs
  induction cs with
  | nil =>
    intro acc out hf q hq
    rw [List.foldlM_nil] at hf
    rw [← (Option.some.injEq _ _).mp hf]
  | cons c2 t ih =>
    intro acc out hf q hq
    rw [List.foldlM_cons] at hf
    rcases hstep : processChannel g sinq piq c2 acc with _ | acc1
    · rw [hstep] at hf
      simp at hf
    rw [hstep] at hf
    simp only [Option.bind_eq_bind, Option.some_bind] at hf
    rw [ih acc1 out hf q hq]
    by_cases hcc : c2 = c
    · subst hcc
      rw [processChannel, hun, Option.some.injEq] at hstep
      rw [hstep]
    · exact processChannel_other g sinq piq c2 acc acc1 hstep q (by
        rw [hq]
        exact fun h => hcc h.symm)

/-- Claim C7: after a successful `generate`, every sample of the
interleaved track of a channel with no assigned waveform function
(positions `c`, `c + nchan`, `c + 2nchan`, …) is zero, whatever the
other channels wrote. -/
theorem claim_C7 (g : WaveGen) (sinq : ℚ → ℚ) (piq : ℚ) (st : Cyclers)
    (r : GenState) (hgen : generate g sinq piq st = some r) (c : ℕ)
    (hun : g.wave ((c : ℤ) + 1) = none) :
    ∀ q, q % g.nchan = c → r.data q = 0 := by
  intro q hq
  rw [generate] at hgen
  split at hgen
  · exact absurd hgen (by simp)
  · exact fold_unmapped_preserve g sinq piq c hun (List.range g.nchan) _ r hgen q hq

/-- Claim C7, witness: channel 2 of the two-channel configuration is
unmapped and its whole interleaved track stays zero, while channel 1
receives a nonzero offset. -/
theorem claim_C7_wit :
    ((mkWaveGen cfgSkip).bind (fun g =>
      (generate g (fun _ => 0) 0 freshCyclers).map
        (fun r => (r.data 1, r.data 3, r.data 5, r.data 7, r.data 0)))) =
      some (0, 0, 0, 0, 16383) := by
  obtain ⟨g, hg⟩ := Option.isSome_iff_exists.mp
    (by decide : (mkWaveGen cfgSkip).isSome = true)
  have hgi := option_map_extract hg
    (by decide : ((mkWaveGen cfgSkip).map (fun g =>
      (generate g (fun _ => 0) 0 freshCyclers).isSome)) = some true)
  obtain ⟨r, hr⟩ := Option.isSome_iff_exists.mp hgi
  have hun : g.wave (((1 : ℕ) : ℤ) + 1) = none := by
    have h := option_map_extract hg
      (by decide : ((mkWaveGen cfgSkip).map (fun g => g.wave 2)) = some none)
    rw [show (((1 : ℕ) : ℤ) + 1) = 2 from by decide]
    exact h
  have hnchan : g.nchan = 2 := option_map_extract hg
    (by decide : ((mkWaveGen cfgSkip).map (fun g => g.nchan)) = some 2)
  have H := claim_C7 g (fun _ => 0) 0 freshCyclers r hr 1 hun
  have hzero : r.data 0 = 16383 := by
    have h := option_map_extract hg
      (by decide : ((mkWaveGen cfgSkip).map (fun g =>
        (generate g (fun _ => 0) 0 freshCyclers).map (fun r => r.data 0))) =
        some (some 16383))
    rw [hr, Option.map_some'] at h
    exact (Option.some.injEq _ _).mp h
  rw [hg, Option.some_bind, hr, Option.map_some']
  refine congrArg some ?_
  rw [H 1 (by rw [hnchan]), H 3 (by rw [hnchan]), H 5 (by rw [hnchan]),
    H 7 (by rw [hnchan]), hzero]

/-! ### Claim C9 -/

theorem pull_ne (st : Cyclers) (key : String) (arr : List String) (v : ℚ)
    (st1 : Cyclers) (key2 : String) (h : pull st key arr = some (v, st1))
    (hne : key2 ≠ key) : st1 key2 = st key2 := by
  rw [pull] at h
  rcases hcg : cyclerGeneric arr (st key) with _ | r
  · rw [hcg] at h
    exact absurd h (by simp)
  · rw [hcg, Option.map_some', Option.some.injEq, Prod.mk.injEq] at h
    rw [← h.2]
    show updateCyc st key r.2 key2 = st key2
    rw [updateCyc, if_neg hne]

theorem pull_spos_step (g : WaveGen) (st4 : Cyclers) (sp : ℚ × Cyclers)
    (c0 : Char) (h0 : strHead? (g.spos.headD (String.mk [])) = some c0)
    (hc : c0 ≠ ('+'))
    (h5 : pull st4 ("spos") g.spos = some sp) :
    sp.2 ("spos") = some ⟨ptrOf (st4 ("spos")) + 1, lastOf (st4 ("spos")),
      rngOf (st4 ("spos"))⟩ ∧
    sp.1 = pyFloatD (g.spos.getD (ptrOf (st4 ("spos")) % g.spos.length) (String.mk [])) := by
  rw [pull, cycler_repeat_step g.spos c0 (st4 ("spos")) h0 hc] at h5
  rcases hv : pyFloat? (g.spos.getD (ptrOf (st4 ("spos")) % g.spos.length) (String.mk []))
    with _ | val
  · rw [hv] at h5
    exact absurd h5 (by simp)
  · rw [hv, Option.map_some', Option.map_some', Option.some.injEq, Prod.mk.injEq] at h5
    constructor
    · rw [← h5.2]
      show updateCyc st4 ("spos") _ ("spos") = _
      rw [updateCyc, if_pos rfl]
    · rw [← h5.1, pyFloatD, hv]
      rfl

theorem pullParams_spos (g : WaveGen) (piq : ℚ) (st : Cyclers) (p : Params)
    (st2 : Cyclers) (c0 : Char)
    (h0 : strHead? (g.spos.headD (String.mk [])) = some c0) (hc : c0 ≠ ('+'))
    (h : pullParams g piq st = some (p, st2)) :
    st2 ("spos") = some ⟨ptrOf (st ("spos")) + 1, lastOf (st ("spos")),
      rngOf (st ("spos"))⟩ ∧
    p.spos = ratTrunc (pyFloatD (g.spos.getD (ptrOf (st ("spos")) % g.spos.length)
      (String.mk []))) := by
  rw [pullParams] at h
  rcases h1 : pull st ("scale") g.scale with _ | s
  · simp only [h1] at h
    exact absurd h (by simp)
  simp only [h1] at h
  rcases h2 : pull s.2 ("wave") g.wavelengths with _ | w
  · simp only [h2] at h
    exact absurd h (by simp)
  simp only [h2] at h
  rcases h3 : pull w.2 ("phase") g.phase with _ | ph
  · simp only [h3] at h
    exact absurd h (by simp)
  simp only [h3] at h
  rcases h4 : pull ph.2 ("crop") g.crop with _ | cr
  · simp only [h4] at h
    exact absurd h (by simp)
  simp only [h4] at h
  rcases h5 : pull cr.2 ("spos") g.spos with _ | sp
  · simp only [h5] at h
    exact absurd h (by simp)
  simp only [h5] at h
  rcases h6 : pull sp.2 ("offset") g.offset with _ | o
  · simp only [h6] at h
    exact absurd h (by simp)
  simp only [h6] at h
  by_cases hvz : g.voltage = 0
  · rw [if_pos hvz] at h
    exact absurd h (by simp)
  rw [if_neg hvz, Option.some.injEq, Prod.mk.injEq] at h
  have hkeep : cr.2 ("spos") = st ("spos") := by
    rw [pull_ne ph.2 ("crop") g.crop cr.1 cr.2 ("spos") (by rw [← h4]) (by decide),
      pull_ne w.2 ("phase") g.phase ph.1 ph.2 ("spos") (by rw [← h3]) (by decide),
      pull_ne s.2 ("wave") g.wavelengths w.1 w.2 ("spos") (by rw [← h2]) (by decide),
      pull_ne st ("scale") g.scale s.1 s.2 ("spos") (by rw [← h1]) (by decide)]
  obtain ⟨hstate, hval⟩ := pull_spos_step g cr.2 sp c0 h0 hc h5
  constructor
  · rw [← h.2, pull_ne sp.2 ("offset") g.offset o.1 o.2 ("spos") (by rw [← h6]) (by decide),
      hstate, hkeep]
  · rw [← h.1]
    show ratTrunc sp.1 = _
    rw [hval, hkeep]

def mappedCount (g : WaveGen) (cs : List ℕ) : ℕ :=
  (cs.filter (fun c => (g.wave ((c : ℤ) + 1)).isSome)).length

theorem run_spos (g : WaveGen) (sinq : ℚ → ℚ) (piq : ℚ) (c0 : Char)
    (h0 : strHead? (g.spos.headD (String.mk [])) = some c0) (hc : c0 ≠ ('+')) :
    ∀ (cs : List ℕ) (acc out : GenState),
      cs.foldlM (fun a c2 => processChannel g sinq piq c2 a) acc = some out →
      ptrOf (out.cyc ("spos")) = ptrOf (acc.cyc ("spos")) + mappedCount g cs ∧
      ∃ tail, out.params = acc.params ++ tail ∧ tail.length = mappedCount g cs ∧
        (∀ c1 p1 rest, tail = (c1, p1) :: rest →
          p1.spos = ratTrunc (pyFloatD (g.spos.getD
            (ptrOf (acc.cyc ("spos")) % g.spos.length) (String.mk [])))) := by
  intro cs
  induction cs with
  | nil =>
    intro acc out hf
    rw [List.foldlM_nil] at hf
    rw [← (Option.some.injEq _ _).mp hf]
    refine ⟨by simp [mappedCount], [], by simp, by simp [mappedCount], ?_⟩
    intro c1 p1 rest hcons
    exact absurd hcons (by simp)
  | cons c2 t ih =>
    intro acc out hf
    rw [List.foldlM_cons] at hf
    rcases hstep : processChannel g sinq piq c2 acc with _ | acc1
    · rw [hstep] at hf
      simp at hf
    rw [hstep] at hf
    simp only [Option.bind_eq_bind, Option.some_bind] at hf
    obtain ⟨ihptr, tail2, ihparams, ihlen, ihhead⟩ := ih acc1 out hf
    rcases hw : g.wave ((c2 : ℤ) + 1) with _ | fn
    · -- unmapped channel: state unchanged, not counted
      have hacc : acc1 = acc := by
        rw [processChannel, hw, Option.some.injEq] at hstep
        exact hstep.symm
      subst hacc
      have hmc : mappedCount g (c2 :: t) = mappedCount g t := by
        simp [mappedCount, List.filter_cons, hw]
      rw [hmc]
      exact ⟨ihptr, tail2, ihparams, ihlen, ihhead⟩
    · -- mapped channel
      simp only [processChannel, hw] at hstep
      rcases hpp : pullParams g piq acc.cyc with _ | r
      · simp only [hpp] at hstep
        exact absurd hstep (by simp)
      simp only [hpp] at hstep
      rcases hws : genWave g sinq piq fn r.1.wavelength r.1.phase with _ | ws
      · simp only [hws] at hstep
        exact absurd hstep (by simp)
      simp only [hws] at hstep
      rcases hwr : writeWindow g c2 r.1 ws acc.data with _ | buf1
      · simp only [hwr] at hstep
        exact absurd hstep (by simp)
      simp only [hwr, Option.some.injEq] at hstep
      obtain ⟨hsstate, hsval⟩ := pullParams_spos g piq acc.cyc r.1 r.2 c0 h0 hc
        (by rw [hpp])
      have hcyc1 : acc1.cyc = r.2 := by rw [← hstep]
      have hpar1 : acc1.params = acc.params ++ [(c2, r.1)] := by rw [← hstep]
      have hptr1 : ptrOf (acc1.cyc ("spos")) = ptrOf (acc.cyc ("spos")) + 1 := by
        rw [hcyc1, hsstate]
        rfl
      have hmc : mappedCount g (c2 :: t) = mappedCount g t + 1 := by
        simp [mappedCount, List.filter_cons, hw]
      constructor
      · rw [ihptr, hptr1, hmc]
        omega
      · refine ⟨(c2, r.1) :: tail2, ?_, ?_, ?_⟩
        · rw [ihparams, hpar1, List.append_assoc, List.singleton_append]
        · rw [List.length_cons, ihlen, hmc]
        · intro c1 p1 rest hcons
          rw [List.cons.injEq, Prod.mk.injEq] at hcons
          rw [← hcons.1.2, hsval]

/-- Claim C9 (amended): a second `generate` call on the same instance
resumes the cyclers where the first left them — each repeat-mode cycler's
cursor has advanced by the number of mapped channels `m` — so the second
call's resolved parameters differ from the first's whenever the spec
value consumed at cursor `m` resolves differently from the one at cursor
`0`; stated here for the `spos` attribute.  (The original claim — any
spec of length > 1 suffices — fails when the spec length divides the
number of mapped channels, or when the revisited tokens resolve
equally.) -/
theorem claim_C9 (g : WaveGen) (sinq : ℚ → ℚ) (piq : ℚ) (c0 : Char)
    (h0 : strHead? (g.spos.headD (String.mk [])) = some c0) (hc : c0 ≠ ('+'))
    (r1 r2 : GenState)
    (h1 : generate g sinq piq freshCyclers = some r1)
    (h2 : generate g sinq piq r1.cyc = some r2)
    (hm1 : r1.params ≠ [])
    (hdiff : ratTrunc (pyFloatD (g.spos.getD (r1.params.length % g.spos.length)
        (String.mk []))) ≠
      ratTrunc (pyFloatD (g.spos.getD (0 % g.spos.length) (String.mk [])))) :
    r1.params ≠ r2.params := by
  intro heq
  rw [generate] at h1 h2
  split at h1
  · exact absurd h1 (by simp)
  split at h2
  · exact absurd h2 (by simp)
  obtain ⟨hptr1, tail1, hp1, hlen1, hhead1⟩ :=
    run_spos g sinq piq c0 h0 hc (List.range g.nchan) _ r1 h1
  obtain ⟨hptr2, tail2, hp2, hlen2, hhead2⟩ :=
    run_spos g sinq piq c0 h0 hc (List.range g.nchan) _ r2 h2
  have hfresh : ptrOf ((⟨fun _ => 0, freshCyclers, []⟩ : GenState).cyc ("spos")) = 0 := rfl
  have hp1x : r1.params = tail1 := by
    rw [hp1]
    rfl
  have hp2x : r2.params = tail2 := by
    rw [hp2]
    rfl
  rcases tail1 with _ | ⟨⟨c1, p1⟩, rest1⟩
  · exact hm1 (by rw [hp1x])
  have hv1 : p1.spos = ratTrunc (pyFloatD (g.spos.getD (0 % g.spos.length)
      (String.mk []))) := by
    have := hhead1 c1 p1 rest1 rfl
    rw [hfresh] at this
    exact this
  have hmcount : r1.params.length = mappedCount g (List.range g.nchan) := by
    rw [hp1x, hlen1]
  have hptr1v : ptrOf (r1.cyc ("spos")) = r1.params.length := by
    rw [hptr1, hfresh, hmcount]
    omega
  have htail2 : tail2 = (c1, p1) :: rest1 := by
    rw [← hp2x, ← heq, hp1x]
  have hv2 : p1.spos = ratTrunc (pyFloatD (g.spos.getD
      (r1.params.length % g.spos.length) (String.mk []))) := by
    have := hhead2 c1 p1 rest1 htail2
    rw [show ptrOf ((⟨fun _ => 0, r1.cyc, []⟩ : GenState).cyc ("spos")) =
      ptrOf (r1.cyc ("spos")) from rfl, hptr1v] at this
    exact this
  exact hdiff (by rw [← hv2, hv1])

/-- Claim C9, counterexample: with two mapped channels and the spos spec
`1,2` (length 2 > 1), both `generate` calls pull tokens 1, 2 — the spec
length divides the pulls per call — so the second call's resolved
parameters are identical to the first's. -/
theorem claim_C9_cex :
    ((mkWaveGen cfgTwoSpos).map (fun g =>
      match generate g (fun _ => 0) 0 freshCyclers with
      | some r1 =>
        match generate g (fun _ => 0) 0 r1.cyc with
        | some r2 => decide (r1.params = r2.params) && decide (1 < g.spos.length)
        | none => false
      | none => false)) = some true := by decide

/-- Two NULL channels with a length-3 spos spec `1,2,3`. -/
def cfgThreeSpos : WArgs :=
  ⟨2, 1, [("10" : String)], none, 2, ("NULL:ALL" : String), [("0" : String)],
   [("1" : String)], [("0" : String)],
   [("1" : String), ("2" : String), ("3" : String)], 10, [("0" : String)]⟩

/-- Claim C9, witness: with the length-3 spos spec `1,2,3` and two mapped
channels, the second `generate` call resumes at cursor 2 and resolves
different parameters. -/
theorem claim_C9_wit :
    ((mkWaveGen cfgThreeSpos).map (fun g =>
      match generate g (fun _ => 0) 0 freshCyclers with
      | some r1 =>
        match generate g (fun _ => 0) 0 r1.cyc with
        | some r2 => decide (r1.params ≠ r2.params)
        | none => false
      | none => false)) = some true := by
  obtain ⟨g, hg⟩ := Option.isSome_iff_exists.mp
    (by decide : (mkWaveGen cfgThreeSpos).isSome = true)
  have h1i := option_map_extract hg
    (by decide : ((mkWaveGen cfgThreeSpos).map (fun g =>
      (generate g (fun _ => 0) 0 freshCyclers).isSome)) = some true)
  obtain ⟨r1, hr1⟩ := Option.isSome_iff_exists.mp h1i
  have h2i := option_map_extract hg
    (by decide : ((mkWaveGen cfgThreeSpos).map (fun g =>
      match generate g (fun _ => 0) 0 freshCyclers with
      | some r1 => (generate g (fun _ => 0) 0 r1.cyc).isSome
      | none => false)) = some true)
  simp only [hr1] at h2i
  obtain ⟨r2, hr2⟩ := Option.isSome_iff_exists.mp h2i
  have hspos : g.spos = [("1" : String), ("2" : String), ("3" : String)] :=
    option_map_extract hg
      (by decide : ((mkWaveGen cfgThreeSpos).map (fun g => g.spos)) =
        some [("1" : String), ("2" : String), ("3" : String)])
  have hps1 : r1.params = [(0, ⟨1, 10, 0, 0, 1, 0⟩), (1, ⟨1, 10, 0, 0, 2, 0⟩)] := by
    have h := option_map_extract hg
      (by decide : ((mkWaveGen cfgThreeSpos).map (fun g =>
        (generate g (fun _ => 0) 0 freshCyclers).map (fun r => r.params))) =
        some (some [(0, ⟨1, 10, 0, 0, 1, 0⟩), (1, ⟨1, 10, 0, 0, 2, 0⟩)]))
    rw [hr1, Option.map_some'] at h
    exact (Option.some.injEq _ _).mp h
  have hneq := claim_C9 g (fun _ => 0) 0 ('1') (by rw [hspos]; decide) (by decide)
    r1 r2 hr1 hr2 (by rw [hps1]; decide) (by rw [hspos, hps1]; decide)
  rw [hg, Option.map_some']
  refine congrArg some ?_
  simp only [hr1, hr2]
  exact decide_eq_true hneq

/-! ### Claim C10 -/

/-- Claim C10: a channel with no assigned waveform function is skipped
before any cycler pull: the whole loop state (buffer, every cycler's
cursor/accumulator/range dictionaries, and the resolved-parameter trace)
is returned unchanged, so the next mapped channel receives exactly the
pulls the skipped channel would have consumed. -/
theorem claim_C10 (g : WaveGen) (sinq : ℚ → ℚ) (piq : ℚ) (c : ℕ) (acc : GenState)
    (hw : g.wave ((c : ℤ) + 1) = none) :
    processChannel g sinq piq c acc = some acc := by
  rw [processChannel, hw]

/-- Claim C10, witness: skipping the unmapped channel 2 of a concrete
configuration returns the loop state unchanged. -/
theorem claim_C10_wit :
    ((mkWaveGen cfgSkip).map (fun g =>
      processChannel g (fun _ => 0) 0 1 ⟨fun _ => 0, freshCyclers, []⟩)) =
    ((mkWaveGen cfgSkip).map (fun _ => some ⟨fun _ => 0, freshCyclers, []⟩)) := by
  obtain ⟨g, hg⟩ := Option.isSome_iff_exists.mp
    (by decide : (mkWaveGen cfgSkip).isSome = true)
  have hw : g.wave (((1 : ℕ) : ℤ) + 1) = none := by
    have h2 : ((mkWaveGen cfgSkip).map (fun g => g.wave 2)) = some none := by decide
    rw [hg, Option.map_some'] at h2
    have := (Option.some.injEq _ _).mp h2
    rw [show (((1 : ℕ) : ℤ) + 1) = 2 from by decide]
    exact this
  rw [hg, Option.map_some', Option.map_some',
    claim_C10 g (fun _ => 0) 0 1 ⟨fun _ => 0, freshCyclers, []⟩ hw]

end Wavegen
